import Mathlib

/-!
# PaintContext and MapPainter constants of `src/mapgui/mappainter.h`

A shallow embedding of the paint context that is handed to every map painter on a
paint event, and of the constants of the painter base class.

* `int` is a 32 bit two's complement integer: a value is an `Int` in
  `[-2^31, 2^31)` and `objectCount++` wraps around (`wrapInt32`).  In C++ the
  overflowing increment is undefined; the wrap is what the usual targets do.
* `float` and `double` values are the rationals they denote.  The result of an
  arithmetic operation is the exact result rounded into the format
  (`FloatFormat.conv`), to nearest with ties to even for IEEE 754 binary32 and
  binary64.  Infinities and NaN are not values of the model: an operation whose
  result is not finite yields `none`.
* Every member function is a state transformer `PaintContext → result × PaintContext`.
-/

namespace MapPainterModel

/-! ## Machine integers -/

/-- Largest value of a 32 bit `int`. -/
def INT_MAX : Int := 2 ^ 31 - 1

/-- Smallest value of a 32 bit `int`. -/
def INT_MIN : Int := -(2 ^ 31)

/-- Two's complement wrap of an integer into the range of a 32 bit `int`. -/
def wrapInt32 (x : Int) : Int := (x + 2 ^ 31) % 2 ^ 32 - 2 ^ 31

/-! ## Floating point -/

/-- Round a rational to the nearest integer, a tie going to the even neighbour. -/
def roundNearestEven (q : ℚ) : Int :=
  let f := ⌊q⌋
  let r := q - f
  if r < 1 / 2 then f else if 1 / 2 < r then f + 1 else if f % 2 = 0 then f else f + 1

/-- Round a rational to a binary floating point number with `p` significand bits
and least normal exponent `emin` (gradual underflow below it), to nearest, ties to
even.  The exponent is not bounded above here. -/
def roundBinary (p : Nat) (emin : Int) (q : ℚ) : ℚ :=
  let e := max (Int.log 2 |q|) emin
  let u : ℚ := (2 : ℚ) ^ (e - ((p : Int) - 1))
  (roundNearestEven (q / u) : ℚ) * u

/-- A floating point format: how an exact result is rounded, and which rounded
results are finite numbers of the format. -/
structure FloatFormat where
  rnd : ℚ → ℚ
  isFinite : ℚ → Bool

/-- IEEE 754 binary32, the C++ `float`. -/
def binary32 : FloatFormat where
  rnd := roundBinary 24 (-126)
  isFinite := fun q => decide (|q| < 2 ^ 128)

/-- IEEE 754 binary64, the C++ `double`. -/
def binary64 : FloatFormat where
  rnd := roundBinary 53 (-1022)
  isFinite := fun q => decide (|q| < 2 ^ 1024)

/-- Deliver an exact result in the format `F`: rounded, or `none` when the rounded
result is out of the finite range (an infinity in IEEE arithmetic). -/
def FloatFormat.conv (F : FloatFormat) (q : ℚ) : Option ℚ :=
  if F.isFinite (F.rnd q) then some (F.rnd q) else none

/-- The arithmetic the code runs on: the formats of `float` and `double`. -/
structure Arith where
  float : FloatFormat
  double : FloatFormat

/-- The arithmetic of the compiled program. -/
def ieee : Arith := ⟨binary32, binary64⟩

/-- The function `std::round`: the nearest integer, halfway cases away from zero. -/
def stdRound (x : ℚ) : ℚ :=
  if 0 ≤ x then (⌊x + 1 / 2⌋ : ℚ) else -(⌊-x + 1 / 2⌋ : ℚ)

/-- The conversion `static_cast<int>` of a floating point value: the fraction is
discarded (truncation toward zero); the conversion is undefined (`none`) when the
truncated value is not an `int`. -/
def staticCastInt (x : ℚ) : Option Int :=
  let t : Int := if 0 ≤ x then ⌊x⌋ else ⌈x⌉
  if INT_MIN ≤ t ∧ t ≤ INT_MAX then some t else none

/-! ## The paint context -/

/-- Modelled from the spec: `atools::geo::Rect` is declared outside this file; the
geographic bounds of the viewport. -/
structure Rect where
  west : ℚ
  north : ℚ
  east : ℚ
  south : ℚ
deriving DecidableEq

/-- Struct that is passed on each paint event to all painters.  Pointers are
addresses, enumerations and flag sets are their integer values, the font is its
description. -/
structure PaintContext where
  mapLayer : Nat
  mapLayerEffective : Nat
  painter : Nat
  viewport : Nat
  viewContext : Nat
  drawFast : Bool
  objectTypes : Nat
  viewportRect : Rect
  mapScrollDetail : Nat
  defaultFont : String
  dispOpts : Nat
  textSizeAircraftAi : ℚ := 1
  symbolSizeNavaid : ℚ := 1
  thicknessFlightplan : ℚ := 1
  textSizeNavaid : ℚ := 1
  symbolSizeAirport : ℚ := 1
  symbolSizeAircraftAi : ℚ := 1
  textSizeFlightplan : ℚ := 1
  textSizeAircraftUser : ℚ := 1
  symbolSizeAircraftUser : ℚ := 1
  textSizeAirport : ℚ := 1
  thicknessTrail : ℚ := 1
  thicknessRangeDistance : ℚ := 1
  objectCount : Int := 0
deriving DecidableEq

namespace PaintContext

/-- Needs to be larger than number of highest level airports. -/
def MAX_OBJECT_COUNT : Int := 2500

/-- A default-initialised context: the members without an initialiser hold whatever
they are given, the others the value of their initialiser. -/
def fresh (mapLayer mapLayerEffective painter viewport viewContext : Nat) (drawFast : Bool)
    (objectTypes : Nat) (viewportRect : Rect) (mapScrollDetail : Nat) (defaultFont : String)
    (dispOpts : Nat) : PaintContext :=
  { mapLayer, mapLayerEffective, painter, viewport, viewContext, drawFast, objectTypes,
    viewportRect, mapScrollDetail, defaultFont, dispOpts }

/-- Member `bool objCount() { objectCount++; return objectCount > MAX_OBJECT_COUNT; }` -/
def objCount (c : PaintContext) : Bool × PaintContext :=
  let c1 := { c with objectCount := wrapInt32 (c.objectCount + 1) }
  (decide (c1.objectCount > MAX_OBJECT_COUNT), c1)

/-- Member `bool isOverflow() { return objectCount > MAX_OBJECT_COUNT; }` -/
def isOverflow (c : PaintContext) : Bool × PaintContext :=
  (decide (c.objectCount > MAX_OBJECT_COUNT), c)

/-- Member `bool dOpt(const opts::DisplayOptions& opts) const { return dispOpts & opts; }`:
the intersection of the two flag sets, converted to `bool`. -/
def dOpt (c : PaintContext) (opts : Nat) : Bool × PaintContext :=
  (decide ((c.dispOpts &&& opts) ≠ 0), c)

/-- Member `int sz(float scale, int size) const`: `size` is converted to `float`, the
product is a `float`. -/
def sz (A : Arith) (c : PaintContext) (scale : ℚ) (size : Int) : Option Int × PaintContext :=
  ((A.float.conv size).bind fun s =>
    (A.float.conv (scale * s)).bind fun p => staticCastInt (stdRound p), c)

/-- Member `int sz(float scale, float size) const`. -/
def sz_float (A : Arith) (c : PaintContext) (scale size : ℚ) : Option Int × PaintContext :=
  ((A.float.conv (scale * size)).bind fun p => staticCastInt (stdRound p), c)

/-- Member `int sz(float scale, double size) const`: `scale` is converted to `double`
(exactly), the product is a `double`. -/
def sz_double (A : Arith) (c : PaintContext) (scale size : ℚ) : Option Int × PaintContext :=
  ((A.double.conv (scale * size)).bind fun p => staticCastInt (stdRound p), c)

/-- Member `float szF(float scale, int size) const`. -/
def szF (A : Arith) (c : PaintContext) (scale : ℚ) (size : Int) : Option ℚ × PaintContext :=
  ((A.float.conv size).bind fun s => A.float.conv (scale * s), c)

/-- Member `float szF(float scale, float size) const`. -/
def szF_float (A : Arith) (c : PaintContext) (scale size : ℚ) : Option ℚ × PaintContext :=
  (A.float.conv (scale * size), c)

/-- Member `float szF(float scale, double size) const`: the `double` product is converted
to the `float` that is returned. -/
def szF_double (A : Arith) (c : PaintContext) (scale size : ℚ) : Option ℚ × PaintContext :=
  ((A.double.conv (scale * size)).bind fun p => A.float.conv p, c)

/-- A call of one of the member functions that the struct defines. -/
inductive Op where
  | objCount
  | isOverflow
  | dOpt (opts : Nat)
  | sz (scale : ℚ) (size : Int)
  | sz_float (scale size : ℚ)
  | sz_double (scale size : ℚ)
  | szF (scale : ℚ) (size : Int)
  | szF_float (scale size : ℚ)
  | szF_double (scale size : ℚ)

/-- The context after a call. -/
def step (A : Arith) (c : PaintContext) : Op → PaintContext
  | .objCount => (objCount c).2
  | .isOverflow => (isOverflow c).2
  | .dOpt o => (dOpt c o).2
  | .sz s n => (sz A c s n).2
  | .sz_float s x => (sz_float A c s x).2
  | .sz_double s x => (sz_double A c s x).2
  | .szF s n => (szF A c s n).2
  | .szF_float s x => (szF_float A c s x).2
  | .szF_double s x => (szF_double A c s x).2

/-- The context after a sequence of calls, first call first. -/
def run (A : Arith) (c : PaintContext) (ops : List Op) : PaintContext :=
  ops.foldl (step A) c

/-- Number of `objCount()` calls in a sequence of calls. -/
def objCountCalls : List Op → Nat
  | [] => 0
  | .objCount :: ops => objCountCalls ops + 1
  | _ :: ops => objCountCalls ops

/-- The context after `n` calls of `objCount()`. -/
def objCountTimes : Nat → PaintContext → PaintContext
  | 0, c => c
  | n + 1, c => objCountTimes n (objCount c).2

end PaintContext

/-! ## Constants of the painter base class -/

/-- Minimum points to use for a circle. -/
def CIRCLE_MIN_POINTS : Int := 16

/-- Maximum points to use for a circle. -/
def CIRCLE_MAX_POINTS : Int := 72

/-- Modelled from the spec: the body of `MapPainter::paintCircle` is not part of the
header, which only declares it and the two bounds.  The number of points is the
spec's `pointCount`: a density that depends on the radius, the viewport scale and
the fast flag, which "must never exceed the upper bound nor fall under the lower
bound".  The density itself is not specified and is a parameter. -/
def paintCircle_numPoints (density : Int → ℚ → Bool → Int) (radiusNm : Int) (scale : ℚ)
    (fast : Bool) : Int :=
  min (max (density radiusNm scale fast) CIRCLE_MIN_POINTS) CIRCLE_MAX_POINTS


/-! ## The object counter -/

namespace PaintContext

theorem wrapInt32_of_range (x : Int) (h1 : -(2 ^ 31) ≤ x) (h2 : x < 2 ^ 31) : wrapInt32 x = x := by
  unfold wrapInt32
  omega

theorem objCount_objectCount (c : PaintContext) (h1 : -(2 ^ 31) - 1 ≤ c.objectCount)
    (h2 : c.objectCount < INT_MAX) : (objCount c).2.objectCount = c.objectCount + 1 := by
  unfold INT_MAX at h2
  simp only [objCount]
  exact wrapInt32_of_range _ (by omega) (by omega)

theorem objCountTimes_objectCount (n : Nat) :
    ∀ c : PaintContext, 0 ≤ c.objectCount → c.objectCount + n ≤ INT_MAX →
      (objCountTimes n c).objectCount = c.objectCount + n := by
  induction n with
  | zero => intro c _ _; simp [objCountTimes]
  | succ k ih =>
    intro c h0 h
    have hs : (objCount c).2.objectCount = c.objectCount + 1 :=
      objCount_objectCount c (by omega) (by push_cast at h; omega)
    rw [objCountTimes, ih _ (by omega) (by rw [hs]; push_cast at h; omega), hs]
    push_cast
    ring

/-- C1: starting from a context with `objectCount = 0`, for every `n < 2^31 - 1`,
after exactly `n` calls of `objCount()` the predicate `isOverflow()` is true if and
only if `n > MAX_OBJECT_COUNT = 2500`; it is false after call 2500 and true after
call 2501. -/
theorem isOverflow_after_calls (c : PaintContext) (h0 : c.objectCount = 0) (n : Nat)
    (hn : (n : Int) < 2 ^ 31 - 1) :
    ((isOverflow (objCountTimes n c)).1 = true ↔ 2500 < n) ∧
      MAX_OBJECT_COUNT = 2500 ∧
      (isOverflow (objCountTimes 2500 c)).1 = false ∧
      (isOverflow (objCountTimes 2501 c)).1 = true := by
  have key : ∀ m : Nat, (m : Int) < 2 ^ 31 - 1 →
      (objCountTimes m c).objectCount = m := by
    intro m hm
    rw [objCountTimes_objectCount m c (by omega) (by unfold INT_MAX; omega), h0]
    simp
  refine ⟨?_, rfl, ?_, ?_⟩
  · simp only [isOverflow, decide_eq_true_eq, key n hn, MAX_OBJECT_COUNT]
    omega
  · simp [isOverflow, key 2500 (by norm_num), MAX_OBJECT_COUNT]
  · simp [isOverflow, key 2501 (by norm_num), MAX_OBJECT_COUNT]

theorem isOverflow_after_calls_witness :
    ((isOverflow (objCountTimes 2501 (fresh 0 0 0 0 0 false 0 ⟨0, 0, 0, 0⟩ 0 "" 0))).1 = true
        ↔ 2500 < 2501) ∧
      MAX_OBJECT_COUNT = 2500 ∧
      (isOverflow (objCountTimes 2500 (fresh 0 0 0 0 0 false 0 ⟨0, 0, 0, 0⟩ 0 "" 0))).1 = false ∧
      (isOverflow (objCountTimes 2501 (fresh 0 0 0 0 0 false 0 ⟨0, 0, 0, 0⟩ 0 "" 0))).1 = true :=
  isOverflow_after_calls (fresh 0 0 0 0 0 false 0 ⟨0, 0, 0, 0⟩ 0 "" 0) rfl 2501 (by norm_num)

/-- C9: for every context with `objectCount < 2^31 - 1` (an `int`), the boolean
returned by `objCount()` equals what `isOverflow()` returns immediately afterwards,
and it is true if and only if the counter before the call was
`>= MAX_OBJECT_COUNT = 2500`. -/
theorem objCount_reports_overflow (c : PaintContext) (hlo : INT_MIN ≤ c.objectCount)
    (hhi : c.objectCount < 2 ^ 31 - 1) :
    (objCount c).1 = (isOverflow (objCount c).2).1 ∧
      ((objCount c).1 = true ↔ MAX_OBJECT_COUNT ≤ c.objectCount) ∧
      MAX_OBJECT_COUNT = 2500 := by
  have hs : wrapInt32 (c.objectCount + 1) = c.objectCount + 1 :=
    wrapInt32_of_range _ (by unfold INT_MIN at hlo; omega) (by omega)
  refine ⟨rfl, ?_, rfl⟩
  simp only [objCount, hs, decide_eq_true_eq, MAX_OBJECT_COUNT]
  omega

theorem objCount_reports_overflow_witness :
    (objCount { fresh 0 0 0 0 0 false 0 ⟨0, 0, 0, 0⟩ 0 "" 0 with objectCount := 2500 }).1
        = (isOverflow (objCount
            { fresh 0 0 0 0 0 false 0 ⟨0, 0, 0, 0⟩ 0 "" 0 with objectCount := 2500 }).2).1 ∧
      ((objCount { fresh 0 0 0 0 0 false 0 ⟨0, 0, 0, 0⟩ 0 "" 0 with objectCount := 2500 }).1 = true
        ↔ MAX_OBJECT_COUNT ≤ 2500) ∧
      MAX_OBJECT_COUNT = 2500 :=
  objCount_reports_overflow { fresh 0 0 0 0 0 false 0 ⟨0, 0, 0, 0⟩ 0 "" 0 with objectCount := 2500 }
    (by decide) (by decide)

theorem step_objectCount (A : Arith) (c : PaintContext) (op : Op) :
    (step A c op).objectCount =
      match op with
      | .objCount => wrapInt32 (c.objectCount + 1)
      | _ => c.objectCount := by
  cases op <;> rfl

theorem run_objectCount (A : Arith) (ops : List Op) :
    ∀ c : PaintContext, INT_MIN ≤ c.objectCount → c.objectCount + objCountCalls ops ≤ INT_MAX →
      (run A c ops).objectCount = c.objectCount + objCountCalls ops := by
  induction ops with
  | nil => intro c _ _; simp [run, objCountCalls]
  | cons op ops ih =>
    intro c hlo hb
    have hrun : run A c (op :: ops) = run A (step A c op) ops := rfl
    rw [hrun]
    cases op with
    | objCount =>
      simp only [objCountCalls, Nat.cast_add, Nat.cast_one] at hb
      have hs : (step A c Op.objCount).objectCount = c.objectCount + 1 := by
        rw [step_objectCount]
        exact wrapInt32_of_range _ (by unfold INT_MIN at hlo; omega) (by unfold INT_MAX at hb; omega)
      rw [ih _ (by rw [hs]; omega) (by rw [hs]; omega), hs]
      simp only [objCountCalls, Nat.cast_add, Nat.cast_one]
      ring
    | _ => exact ih _ hlo hb

/-- C2, as amended: as long as the counter does not pass `2^31 - 1` (the number of
`objCount()` calls in the sequence is at most `2^31 - 1 - objectCount`), no sequence
of calls of the member functions makes `objectCount` smaller, and a context in which
`isOverflow()` is true is still in overflow after the sequence. -/
theorem overflow_sticky_below_int_max (A : Arith) (c : PaintContext) (ops : List Op)
    (hlo : INT_MIN ≤ c.objectCount) (hb : c.objectCount + objCountCalls ops ≤ INT_MAX) :
    c.objectCount ≤ (run A c ops).objectCount ∧
      ((isOverflow c).1 = true → (isOverflow (run A c ops)).1 = true) := by
  have h := run_objectCount A ops c hlo hb
  refine ⟨by rw [h]; omega, ?_⟩
  simp only [isOverflow, decide_eq_true_eq, h]
  intro ho
  omega

theorem overflow_sticky_below_int_max_witness :
    (2501 : Int) ≤
        (run ieee { fresh 0 0 0 0 0 false 0 ⟨0, 0, 0, 0⟩ 0 "" 0 with objectCount := 2501 }
          [Op.objCount, Op.isOverflow, Op.objCount]).objectCount ∧
      ((isOverflow { fresh 0 0 0 0 0 false 0 ⟨0, 0, 0, 0⟩ 0 "" 0 with objectCount := 2501 }).1 = true →
        (isOverflow
          (run ieee { fresh 0 0 0 0 0 false 0 ⟨0, 0, 0, 0⟩ 0 "" 0 with objectCount := 2501 }
            [Op.objCount, Op.isOverflow, Op.objCount])).1 = true) :=
  overflow_sticky_below_int_max ieee
    { fresh 0 0 0 0 0 false 0 ⟨0, 0, 0, 0⟩ 0 "" 0 with objectCount := 2501 }
    [Op.objCount, Op.isOverflow, Op.objCount] (by decide) (by decide)

/-- C2 fails as stated: at `objectCount = 2^31 - 1` the context is in overflow, and
one call of `objCount()` leaves it with a smaller counter and out of overflow. -/
theorem overflow_not_sticky_at_int_max :
    (isOverflow { fresh 0 0 0 0 0 false 0 ⟨0, 0, 0, 0⟩ 0 "" 0 with objectCount := 2147483647 }).1
        = true ∧
      (isOverflow (run ieee
        { fresh 0 0 0 0 0 false 0 ⟨0, 0, 0, 0⟩ 0 "" 0 with objectCount := 2147483647 }
        [Op.objCount])).1 = false ∧
      (run ieee { fresh 0 0 0 0 0 false 0 ⟨0, 0, 0, 0⟩ 0 "" 0 with objectCount := 2147483647 }
          [Op.objCount]).objectCount = -2147483648 := by
  refine ⟨by decide, by decide, by decide⟩

/-- C3, as amended: for `objectCount < 2^31 - 1`, `objCount()` changes `objectCount`
by exactly +1 and leaves every other field unchanged; `isOverflow()`, `dOpt()` and
every overload of `sz()` and `szF()` leave every field, `objectCount` included,
unchanged. -/
theorem frame_of_member_functions (A : Arith) (c : PaintContext)
    (hlo : INT_MIN ≤ c.objectCount) (hhi : c.objectCount < INT_MAX) :
    (objCount c).2 = { c with objectCount := c.objectCount + 1 } ∧
      (isOverflow c).2 = c ∧
      (∀ opts, (dOpt c opts).2 = c) ∧
      (∀ scale size, (sz A c scale size).2 = c) ∧
      (∀ scale size, (sz_float A c scale size).2 = c) ∧
      (∀ scale size, (sz_double A c scale size).2 = c) ∧
      (∀ scale size, (szF A c scale size).2 = c) ∧
      (∀ scale size, (szF_float A c scale size).2 = c) ∧
      (∀ scale size, (szF_double A c scale size).2 = c) := by
  have hs : wrapInt32 (c.objectCount + 1) = c.objectCount + 1 :=
    wrapInt32_of_range _ (by unfold INT_MIN at hlo; omega) (by unfold INT_MAX at hhi; omega)
  refine ⟨?_, rfl, fun _ => rfl, fun _ _ => rfl, fun _ _ => rfl, fun _ _ => rfl,
    fun _ _ => rfl, fun _ _ => rfl, fun _ _ => rfl⟩
  simp only [objCount, hs]

theorem frame_of_member_functions_witness :
    (objCount (fresh 1 2 3 4 0 true 5 ⟨0, 1, 1, 0⟩ 1 "Sans" 6)).2 =
        { fresh 1 2 3 4 0 true 5 ⟨0, 1, 1, 0⟩ 1 "Sans" 6 with objectCount := 0 + 1 } ∧
      (isOverflow (fresh 1 2 3 4 0 true 5 ⟨0, 1, 1, 0⟩ 1 "Sans" 6)).2 =
        fresh 1 2 3 4 0 true 5 ⟨0, 1, 1, 0⟩ 1 "Sans" 6 :=
  ⟨(frame_of_member_functions ieee (fresh 1 2 3 4 0 true 5 ⟨0, 1, 1, 0⟩ 1 "Sans" 6)
      (by decide) (by decide)).1,
    (frame_of_member_functions ieee (fresh 1 2 3 4 0 true 5 ⟨0, 1, 1, 0⟩ 1 "Sans" 6)
      (by decide) (by decide)).2.1⟩

/-- C3 fails as stated: at `objectCount = 2^31 - 1` a call of `objCount()` does not
change the counter by +1, it wraps to `-2^31`. -/
theorem objCount_not_plus_one_at_int_max :
    (objCount { fresh 0 0 0 0 0 false 0 ⟨0, 0, 0, 0⟩ 0 "" 0 with objectCount := 2147483647 }).2.objectCount
        = -2147483648 ∧
      (-2147483648 : Int) ≠ 2147483647 + 1 := by
  refine ⟨by decide, by decide⟩

/-! ## Display options -/

/-- C10: `dOpt(opts)` is true if and only if at least one bit set in `opts` is also
set in `dispOpts`; for the empty argument it is false. -/
theorem dOpt_iff_common_flag (c : PaintContext) (opts : Nat) :
    ((dOpt c opts).1 = true ↔ ∃ i, opts.testBit i = true ∧ c.dispOpts.testBit i = true) ∧
      (dOpt c 0).1 = false := by
  refine ⟨?_, by simp [dOpt]⟩
  simp only [dOpt, decide_eq_true_eq]
  constructor
  · intro h
    obtain ⟨i, hi⟩ := Nat.ne_zero_implies_bit_true h
    rw [Nat.testBit_land, Bool.and_eq_true] at hi
    exact ⟨i, hi.2, hi.1⟩
  · rintro ⟨i, h1, h2⟩ h0
    have : (c.dispOpts &&& opts).testBit i = true := by
      rw [Nat.testBit_land, h1, h2]; rfl
    rw [h0] at this
    simp at this

end PaintContext


/-! ## Rounding -/

theorem roundNearestEven_intCast (z : Int) : roundNearestEven (z : ℚ) = z := by
  simp [roundNearestEven]

theorem roundNearestEven_le (q : ℚ) (N : Int) (h : q ≤ N) : roundNearestEven q ≤ N := by
  have hf : ⌊q⌋ ≤ N := Int.floor_le_floor h |>.trans (by simp)
  have hfl : (⌊q⌋ : ℚ) ≤ q := Int.floor_le q
  unfold roundNearestEven
  simp only
  by_cases h1 : q - (⌊q⌋ : ℚ) < 1 / 2
  · rw [if_pos h1]
    exact hf
  · have hlt : ⌊q⌋ < N := by
      have : ((⌊q⌋ : Int) : ℚ) < (N : ℚ) := by linarith
      exact_mod_cast this
    rw [if_neg h1]
    split_ifs <;> omega

theorem le_roundNearestEven (q : ℚ) (N : Int) (h : (N : ℚ) ≤ q) : N ≤ roundNearestEven q := by
  have hf : N ≤ ⌊q⌋ := Int.le_floor.mpr h
  unfold roundNearestEven
  simp only
  split_ifs <;> omega

theorem zpow_two_pos (e : Int) : (0 : ℚ) < (2 : ℚ) ^ e := zpow_pos (by norm_num) e

theorem roundBinary_of_int_multiple (p : Nat) (emin : Int) (q : ℚ) (z : Int)
    (h : q = z * (2 : ℚ) ^ (max (Int.log 2 |q|) emin - ((p : Int) - 1))) :
    roundBinary p emin q = q := by
  unfold roundBinary
  simp only
  have hu := zpow_two_pos (max (Int.log 2 |q|) emin - ((p : Int) - 1))
  have hz : q / (2 : ℚ) ^ (max (Int.log 2 |q|) emin - ((p : Int) - 1)) = z := by
    rw [div_eq_iff hu.ne']
    exact h
  rw [hz, roundNearestEven_intCast]
  exact h.symm

theorem intLog_two_eq (q : ℚ) (e : Int) (h1 : (2 : ℚ) ^ e ≤ q) (h2 : q < (2 : ℚ) ^ (e + 1)) :
    Int.log 2 q = e := by
  have hq : 0 < q := lt_of_lt_of_le (zpow_two_pos e) h1
  have ha : e ≤ Int.log 2 q := (Int.zpow_le_iff_le_log (by norm_num) hq).mp (by exact_mod_cast h1)
  have hb : Int.log 2 q < e + 1 := (Int.lt_zpow_iff_log_lt (by norm_num) hq).mp (by exact_mod_cast h2)
  omega


theorem intLog_two_le (q : ℚ) (k : Int) (h0 : q ≠ 0) (h : |q| ≤ (2 : ℚ) ^ k) :
    Int.log 2 |q| ≤ k := by
  have h1 := Int.log_mono_right (b := 2) (abs_pos.mpr h0) h
  have h2 := Int.log_zpow (R := ℚ) (b := 2) (by norm_num) k
  push_cast at h2
  rw [h2] at h1
  exact h1

theorem roundBinary_zero (p : Nat) (emin : Int) : roundBinary p emin 0 = 0 := by
  simp [roundBinary, roundNearestEven]

theorem roundBinary_abs_le (p : Nat) (emin : Int) (q : ℚ) (k : Int) (hp : 1 ≤ p)
    (hk : emin ≤ k) (h : |q| ≤ (2 : ℚ) ^ k) : |roundBinary p emin q| ≤ (2 : ℚ) ^ k := by
  by_cases h0 : q = 0
  · rw [h0, roundBinary_zero, abs_zero]
    exact (zpow_two_pos k).le
  have he : max (Int.log 2 |q|) emin ≤ k := max_le (intLog_two_le q k h0 h) hk
  unfold roundBinary
  simp only
  generalize hx : max (Int.log 2 |q|) emin - ((p : Int) - 1) = x at *
  have hu := zpow_two_pos x
  have hd : 0 ≤ k - x := by omega
  have hN : (2 : ℚ) ^ k = (((2 : Int) ^ (k - x).toNat : Int) : ℚ) * (2 : ℚ) ^ x := by
    push_cast
    rw [← zpow_natCast, Int.toNat_of_nonneg hd, ← zpow_add₀ (by norm_num : (2 : ℚ) ≠ 0)]
    congr 1
    ring
  obtain ⟨hlo, hhi⟩ := abs_le.mp h
  have h1 : roundNearestEven (q / (2 : ℚ) ^ x) ≤ (2 : Int) ^ (k - x).toNat :=
    roundNearestEven_le _ _ (by rw [div_le_iff₀ hu, ← hN]; exact hhi)
  have h2 : -((2 : Int) ^ (k - x).toNat) ≤ roundNearestEven (q / (2 : ℚ) ^ x) :=
    le_roundNearestEven _ _ (by
      rw [le_div_iff₀ hu]
      push_cast
      rw [neg_mul]
      push_cast at hN
      rw [← hN]
      exact hlo)
  have h1q : ((roundNearestEven (q / (2 : ℚ) ^ x) : Int) : ℚ) ≤ (((2 : Int) ^ (k - x).toNat : Int) : ℚ) := by
    exact_mod_cast h1
  have h2q : -(((2 : Int) ^ (k - x).toNat : Int) : ℚ) ≤ ((roundNearestEven (q / (2 : ℚ) ^ x) : Int) : ℚ) := by
    exact_mod_cast h2
  rw [abs_le, hN]
  constructor
  · rw [← neg_mul]
    exact mul_le_mul_of_nonneg_right h2q hu.le
  · exact mul_le_mul_of_nonneg_right h1q hu.le

theorem roundBinary_intCast (p : Nat) (emin : Int) (n : Int) (hp : 1 ≤ p) (hemin : emin ≤ 0)
    (h : |n| ≤ 2 ^ p) : roundBinary p emin (n : ℚ) = n := by
  by_cases h0 : n = 0
  · rw [h0]
    simpa using roundBinary_zero p emin
  have hq0 : (n : ℚ) ≠ 0 := by exact_mod_cast h0
  have habs : |(n : ℚ)| ≤ (2 : ℚ) ^ (p : Int) := by
    rw [zpow_natCast]
    exact_mod_cast h
  have hupper : Int.log 2 |(n : ℚ)| ≤ p := intLog_two_le _ _ hq0 habs
  have hone : (1 : ℚ) ≤ |(n : ℚ)| := by
    have : (1 : Int) ≤ |n| := Int.one_le_abs h0
    exact_mod_cast this
  have hlower : 0 ≤ Int.log 2 |(n : ℚ)| := by
    have := (Int.zpow_le_iff_le_log (R := ℚ) (b := 2) (by norm_num) (abs_pos.mpr hq0) (x := 0)).mp
      (by simpa using hone)
    exact this
  have hmax : max (Int.log 2 |(n : ℚ)|) emin = Int.log 2 |(n : ℚ)| := max_eq_left (by omega)
  by_cases hcase : Int.log 2 |(n : ℚ)| ≤ (p : Int) - 1
  · apply roundBinary_of_int_multiple p emin (n : ℚ)
      (n * (2 : Int) ^ ((p : Int) - 1 - Int.log 2 |(n : ℚ)|).toNat)
    rw [hmax]
    push_cast
    rw [mul_assoc, ← zpow_natCast, Int.toNat_of_nonneg (by omega),
      ← zpow_add₀ (by norm_num : (2 : ℚ) ≠ 0)]
    simp
  · have he : Int.log 2 |(n : ℚ)| = p := by omega
    have hge : (2 : ℚ) ^ (p : Int) ≤ |(n : ℚ)| := by
      have := Int.zpow_log_le_self (R := ℚ) (b := 2) (by norm_num) (abs_pos.mpr hq0)
      rw [he] at this
      exact_mod_cast this
    have heq : |(n : ℚ)| = (2 : ℚ) ^ (p : Int) := le_antisymm habs hge
    obtain ⟨m, rfl⟩ : ∃ m, p = m + 1 := ⟨p - 1, by omega⟩
    have hx : Int.log 2 |(n : ℚ)| - (((m + 1 : Nat) : Int) - 1) = 1 := by
      rw [he]; push_cast; ring
    rcases abs_eq (zpow_two_pos _).le |>.mp heq with hn | hn
    · apply roundBinary_of_int_multiple (m + 1) emin (n : ℚ) ((2 : Int) ^ m)
      rw [hmax, hx, hn]
      push_cast
      rw [zpow_add₀ (by norm_num : (2 : ℚ) ≠ 0)]
      simp
    · apply roundBinary_of_int_multiple (m + 1) emin (n : ℚ) (-(2 : Int) ^ m)
      rw [hmax, hx, hn]
      push_cast
      rw [zpow_add₀ (by norm_num : (2 : ℚ) ≠ 0)]
      simp

theorem roundNearestEven_abs_sub_le (q : ℚ) : |(roundNearestEven q : ℚ) - q| ≤ 1 / 2 := by
  have h1 : (⌊q⌋ : ℚ) ≤ q := Int.floor_le q
  have h2 : q < (⌊q⌋ : ℚ) + 1 := Int.lt_floor_add_one q
  unfold roundNearestEven
  simp only
  rw [abs_le]
  by_cases ha : q - (⌊q⌋ : ℚ) < 1 / 2
  · rw [if_pos ha]
    constructor <;> linarith
  · rw [if_neg ha]
    push_neg at ha
    by_cases hb : 1 / 2 < q - (⌊q⌋ : ℚ)
    · rw [if_pos hb]
      push_cast
      constructor <;> linarith
    · rw [if_neg hb]
      push_neg at hb
      split_ifs
      · constructor <;> linarith
      · push_cast
        constructor <;> linarith

theorem roundBinary_abs_sub_le (p : Nat) (emin : Int) (q : ℚ) :
    |roundBinary p emin q - q| ≤ (2 : ℚ) ^ (max (Int.log 2 |q|) emin - ((p : Int) - 1)) / 2 := by
  unfold roundBinary
  simp only
  generalize max (Int.log 2 |q|) emin - ((p : Int) - 1) = x
  have hu := zpow_two_pos x
  have h := roundNearestEven_abs_sub_le (q / (2 : ℚ) ^ x)
  have heq : (roundNearestEven (q / (2 : ℚ) ^ x) : ℚ) * (2 : ℚ) ^ x - q =
      ((roundNearestEven (q / (2 : ℚ) ^ x) : ℚ) - q / (2 : ℚ) ^ x) * (2 : ℚ) ^ x := by
    field_simp
  rw [heq, abs_mul, abs_of_pos hu]
  calc |(roundNearestEven (q / (2 : ℚ) ^ x) : ℚ) - q / (2 : ℚ) ^ x| * (2 : ℚ) ^ x
      ≤ 1 / 2 * (2 : ℚ) ^ x := mul_le_mul_of_nonneg_right h hu.le
    _ = (2 : ℚ) ^ x / 2 := by ring

/-- The rounding error of binary32: at most `2^-24` relative to the larger of `|q|`
and the least normal number `2^-126`. -/
theorem binary32_rnd_error (q : ℚ) :
    |binary32.rnd q - q| ≤ max |q| ((2 : ℚ) ^ (-126 : Int)) / 2 ^ 24 := by
  by_cases h0 : q = 0
  · subst h0
    have : binary32.rnd 0 = 0 := roundBinary_zero 24 (-126)
    rw [this]
    simp only [sub_zero, abs_zero]
    positivity
  have hq : 0 < |q| := abs_pos.mpr h0
  have hlog : (2 : ℚ) ^ Int.log 2 |q| ≤ |q| := by
    have := Int.zpow_log_le_self (R := ℚ) (b := 2) (by norm_num) hq
    exact_mod_cast this
  have hE : (2 : ℚ) ^ (max (Int.log 2 |q|) (-126)) ≤ max |q| ((2 : ℚ) ^ (-126 : Int)) := by
    rcases le_total (Int.log 2 |q|) (-126) with h | h
    · rw [max_eq_right h]
      exact le_max_right _ _
    · rw [max_eq_left h]
      exact hlog.trans (le_max_left _ _)
  have hb := roundBinary_abs_sub_le 24 (-126) q
  have hsplit : (2 : ℚ) ^ (max (Int.log 2 |q|) (-126) - (((24 : Nat) : Int) - 1)) / 2 =
      (2 : ℚ) ^ (max (Int.log 2 |q|) (-126)) / 2 ^ 24 := by
    rw [zpow_sub₀ (by norm_num : (2 : ℚ) ≠ 0)]
    norm_num
    ring
  rw [hsplit] at hb
  calc |binary32.rnd q - q| ≤ (2 : ℚ) ^ (max (Int.log 2 |q|) (-126)) / 2 ^ 24 := hb
    _ ≤ max |q| ((2 : ℚ) ^ (-126 : Int)) / 2 ^ 24 :=
      div_le_div_of_nonneg_right hE (by positivity)

theorem roundBinary_eq (p : Nat) (emin : Int) (q : ℚ) (e m : Int) (h1 : (2 : ℚ) ^ e ≤ |q|)
    (h2 : |q| < (2 : ℚ) ^ (e + 1)) (he : emin ≤ e)
    (hm : roundNearestEven (q / (2 : ℚ) ^ (e - ((p : Int) - 1))) = m) :
    roundBinary p emin q = m * (2 : ℚ) ^ (e - ((p : Int) - 1)) := by
  unfold roundBinary
  simp only
  rw [intLog_two_eq |q| e h1 h2, max_eq_left he, hm]

theorem stdRound_intCast (k : Int) : stdRound (k : ℚ) = k := by
  unfold stdRound
  split_ifs with h
  · have : ⌊(k : ℚ) + 1 / 2⌋ = k := by
      rw [Int.floor_eq_iff]
      constructor <;> linarith
    rw [this]
  · have : ⌊-(k : ℚ) + 1 / 2⌋ = -k := by
      rw [Int.floor_eq_iff]
      push_cast
      constructor <;> linarith
    rw [this]
    push_cast
    ring

theorem staticCastInt_intCast (k : Int) (h1 : INT_MIN ≤ k) (h2 : k ≤ INT_MAX) :
    staticCastInt (k : ℚ) = some k := by
  unfold staticCastInt
  have : (if (0 : ℚ) ≤ (k : ℚ) then ⌊(k : ℚ)⌋ else ⌈(k : ℚ)⌉) = k := by
    split_ifs <;> simp
  simp only [this]
  rw [if_pos ⟨h1, h2⟩]

theorem binary32_conv_intCast (n : Int) (h : |n| ≤ 2 ^ 24) : binary32.conv (n : ℚ) = some (n : ℚ) := by
  have hr : binary32.rnd (n : ℚ) = n := roundBinary_intCast 24 (-126) n (by norm_num) (by norm_num) h
  unfold FloatFormat.conv
  rw [hr]
  have hfin : binary32.isFinite (n : ℚ) = true := by
    simp only [binary32, decide_eq_true_eq]
    have h1 : |(n : ℚ)| ≤ 2 ^ 24 := by exact_mod_cast h
    calc |(n : ℚ)| ≤ 2 ^ 24 := h1
      _ < 2 ^ 128 := by norm_num
  rw [if_pos hfin]

theorem stdRound_spec (x : ℚ) :
    ∃ k : Int, stdRound x = k ∧ |(k : ℚ) - x| ≤ 1 / 2 ∧ (|(k : ℚ) - x| = 1 / 2 → |x| < |(k : ℚ)|) := by
  unfold stdRound
  split_ifs with h
  · refine ⟨⌊x + 1 / 2⌋, rfl, ?_, ?_⟩
    · have h1 := Int.floor_le (x + 1 / 2)
      have h2 := Int.lt_floor_add_one (x + 1 / 2)
      rw [abs_le]
      constructor <;> linarith
    · intro he
      have h1 := Int.floor_le (x + 1 / 2)
      have h2 := Int.lt_floor_add_one (x + 1 / 2)
      have hk : (⌊x + 1 / 2⌋ : ℚ) = x + 1 / 2 := by
        rcases abs_eq (by norm_num : (0 : ℚ) ≤ 1 / 2) |>.mp he with h3 | h3 <;> linarith
      rw [hk, abs_of_nonneg h, abs_of_nonneg (by linarith)]
      linarith
  · push_neg at h
    refine ⟨-⌊-x + 1 / 2⌋, by push_cast; rfl, ?_, ?_⟩
    · have h1 := Int.floor_le (-x + 1 / 2)
      have h2 := Int.lt_floor_add_one (-x + 1 / 2)
      push_cast
      rw [abs_le]
      constructor <;> linarith
    · intro he
      have h1 := Int.floor_le (-x + 1 / 2)
      have h2 := Int.lt_floor_add_one (-x + 1 / 2)
      push_cast at he ⊢
      have hk : (⌊-x + 1 / 2⌋ : ℚ) = -x + 1 / 2 := by
        rcases abs_eq (by norm_num : (0 : ℚ) ≤ 1 / 2) |>.mp he with h3 | h3 <;> linarith
      rw [hk, abs_of_neg h, abs_neg, abs_of_nonneg (by linarith)]
      linarith

theorem staticCastInt_stdRound (x : ℚ) (hlo : (INT_MIN : ℚ) ≤ x) (hhi : x ≤ (INT_MAX : ℚ)) :
    ∃ k : Int, staticCastInt (stdRound x) = some k ∧ stdRound x = k ∧ INT_MIN ≤ k ∧ k ≤ INT_MAX := by
  obtain ⟨k, hk, hd, -⟩ := stdRound_spec x
  obtain ⟨h1, h2⟩ := abs_le.mp hd
  have hk1 : INT_MIN ≤ k := by
    have : ((INT_MIN - 1 : Int) : ℚ) < (k : ℚ) := by push_cast; linarith
    have := Int.cast_lt.mp this
    omega
  have hk2 : k ≤ INT_MAX := by
    have : (k : ℚ) < ((INT_MAX + 1 : Int) : ℚ) := by push_cast; linarith
    have := Int.cast_lt.mp this
    omega
  exact ⟨k, by rw [hk]; exact staticCastInt_intCast k hk1 hk2, hk, hk1, hk2⟩

theorem binary32_conv_of_abs_le (q : ℚ) (k : Int) (hk : -126 ≤ k) (hk2 : k < 128)
    (h : |q| ≤ (2 : ℚ) ^ k) :
    binary32.conv q = some (binary32.rnd q) ∧ |binary32.rnd q| ≤ (2 : ℚ) ^ k := by
  have hb : |binary32.rnd q| ≤ (2 : ℚ) ^ k := roundBinary_abs_le 24 (-126) q k (by norm_num) hk h
  refine ⟨?_, hb⟩
  unfold FloatFormat.conv
  have hfin : binary32.isFinite (binary32.rnd q) = true := by
    simp only [binary32, decide_eq_true_eq]
    calc |roundBinary 24 (-126) q| ≤ (2 : ℚ) ^ k := hb
      _ < (2 : ℚ) ^ (128 : Int) := zpow_lt_zpow_right₀ (by norm_num) hk2
      _ = 2 ^ 128 := by norm_num
  rw [if_pos hfin]

theorem binary32_conv_eq (q r : ℚ) (hr : binary32.rnd q = r) (hfin : |r| < 2 ^ 128) :
    binary32.conv q = some r := by
  unfold FloatFormat.conv
  rw [hr]
  have : binary32.isFinite r = true := by
    simp only [binary32, decide_eq_true_eq]
    exact hfin
  rw [if_pos this]

namespace PaintContext

theorem sz_eq_some (A : Arith) (c : PaintContext) (scale : ℚ) (size : Int) (s p : ℚ) (k : Int)
    (h1 : A.float.conv (size : ℚ) = some s) (h2 : A.float.conv (scale * s) = some p)
    (h3 : staticCastInt (stdRound p) = some k) : (sz A c scale size).1 = some k := by
  simp only [sz, h1, Option.some_bind, h2, h3]

theorem szF_eq_some (A : Arith) (c : PaintContext) (scale : ℚ) (size : Int) (s p : ℚ)
    (h1 : A.float.conv (size : ℚ) = some s) (h2 : A.float.conv (scale * s) = some p) :
    (szF A c scale size).1 = some p := by
  simp only [szF, h1, Option.some_bind, h2]

theorem sz_int_scale (c : PaintContext) (m n : Int) (hn : |n| ≤ 2 ^ 24) (hmn : |m * n| ≤ 2 ^ 24) :
    (sz ieee c (m : ℚ) n).1 = some (m * n) ∧ (szF ieee c (m : ℚ) n).1 = some ((m * n : Int) : ℚ) := by
  have h1 : binary32.conv (n : ℚ) = some (n : ℚ) := binary32_conv_intCast n hn
  have h2 : binary32.conv ((m : ℚ) * (n : ℚ)) = some ((m * n : Int) : ℚ) := by
    have := binary32_conv_intCast (m * n) hmn
    push_cast at this ⊢
    exact this
  have h3 : staticCastInt (stdRound ((m * n : Int) : ℚ)) = some (m * n) := by
    rw [stdRound_intCast]
    have hb := abs_le.mp hmn
    exact staticCastInt_intCast _ (by unfold INT_MIN; omega) (by unfold INT_MAX; omega)
  constructor
  · simp only [sz, ieee, h1, Option.some_bind, h2, h3]
  · simp only [szF, ieee, h1, Option.some_bind, h2]

/-- C5, as amended: a default-initialised context has `objectCount = 0`, is not in
overflow and has each of its twelve multipliers equal to 1; with the multiplier 1 the
scaling is the identity on every integer size `n` with `|n| <= 2^24`, the integers
that a `float` holds exactly: `sz(1.0, n) = n` and `szF(1.0, n) = n`. -/
theorem defaults_are_neutral (c : PaintContext) (mapLayer mapLayerEffective painter viewport
    viewContext : Nat) (drawFast : Bool) (objectTypes : Nat) (viewportRect : Rect)
    (mapScrollDetail : Nat) (defaultFont : String) (dispOpts : Nat) (n : Int)
    (hc : c = fresh mapLayer mapLayerEffective painter viewport viewContext drawFast objectTypes
      viewportRect mapScrollDetail defaultFont dispOpts)
    (hn : |n| ≤ 2 ^ 24) :
    c.objectCount = 0 ∧ (isOverflow c).1 = false ∧
      (c.textSizeAircraftAi = 1 ∧ c.symbolSizeNavaid = 1 ∧ c.thicknessFlightplan = 1 ∧
        c.textSizeNavaid = 1 ∧ c.symbolSizeAirport = 1 ∧ c.symbolSizeAircraftAi = 1 ∧
        c.textSizeFlightplan = 1 ∧ c.textSizeAircraftUser = 1 ∧ c.symbolSizeAircraftUser = 1 ∧
        c.textSizeAirport = 1 ∧ c.thicknessTrail = 1 ∧ c.thicknessRangeDistance = 1) ∧
      (sz ieee c 1 n).1 = some n ∧ (szF ieee c 1 n).1 = some (n : ℚ) := by
  have h := sz_int_scale c 1 n hn (by simpa using hn)
  simp only [Int.cast_one, one_mul] at h
  subst hc
  refine ⟨rfl, ?_, ⟨rfl, rfl, rfl, rfl, rfl, rfl, rfl, rfl, rfl, rfl, rfl, rfl⟩, h.1, h.2⟩
  simp [isOverflow, fresh, MAX_OBJECT_COUNT]

theorem defaults_are_neutral_witness :
    (fresh 1 2 3 4 0 true 5 ⟨0, 1, 1, 0⟩ 1 "Sans" 6).objectCount = 0 ∧
      (isOverflow (fresh 1 2 3 4 0 true 5 ⟨0, 1, 1, 0⟩ 1 "Sans" 6)).1 = false ∧
      (sz ieee (fresh 1 2 3 4 0 true 5 ⟨0, 1, 1, 0⟩ 1 "Sans" 6) 1 16777216).1 = some 16777216 ∧
      (szF ieee (fresh 1 2 3 4 0 true 5 ⟨0, 1, 1, 0⟩ 1 "Sans" 6) 1 16777216).1
        = some ((16777216 : Int) : ℚ) :=
  have h := defaults_are_neutral (fresh 1 2 3 4 0 true 5 ⟨0, 1, 1, 0⟩ 1 "Sans" 6)
    1 2 3 4 0 true 5 ⟨0, 1, 1, 0⟩ 1 "Sans" 6 16777216 rfl (by norm_num)
  ⟨h.1, h.2.1, h.2.2.2.1, h.2.2.2.2⟩

theorem binary32_rnd_16777217 : binary32.rnd 16777217 = 16777216 := by
  have := roundBinary_eq 24 (-126) 16777217 24 8388608 (by norm_num [abs_of_pos])
    (by norm_num [abs_of_pos]) (by norm_num) (by norm_num [roundNearestEven])
  simp only [binary32]
  rw [this]
  norm_num

/-- C5 fails as stated: the size 2^24 + 1 = 16777217 is not a `float`; `sz(1.0, n)`
and `szF(1.0, n)` give 16777216 for it. -/
theorem scaling_by_one_not_identity :
    (sz ieee (fresh 0 0 0 0 0 false 0 ⟨0, 0, 0, 0⟩ 0 "" 0) 1 16777217).1 = some 16777216 ∧
      (szF ieee (fresh 0 0 0 0 0 false 0 ⟨0, 0, 0, 0⟩ 0 "" 0) 1 16777217).1 = some 16777216 ∧
      (16777216 : Int) ≠ 16777217 := by
  have h1 : binary32.conv ((16777217 : Int) : ℚ) = some 16777216 :=
    binary32_conv_eq _ _ (by simpa using binary32_rnd_16777217) (by norm_num [abs_of_pos])
  have h2 : binary32.conv (1 * 16777216) = some 16777216 := by
    have := binary32_conv_intCast 16777216 (by norm_num)
    simpa using this
  have h3 : staticCastInt (stdRound 16777216) = some 16777216 := by
    have := stdRound_intCast 16777216
    push_cast at this
    rw [this]
    exact staticCastInt_intCast 16777216 (by norm_num [INT_MIN]) (by norm_num [INT_MAX])
  exact ⟨sz_eq_some ieee _ 1 16777217 16777216 16777216 16777216 h1 h2 h3,
    szF_eq_some ieee _ 1 16777217 16777216 16777216 h1 h2, by norm_num⟩

theorem cast_stdRound_spec (x : ℚ) (hlo : (INT_MIN : ℚ) ≤ x) (hhi : x ≤ (INT_MAX : ℚ)) :
    ∃ k : Int, staticCastInt (stdRound x) = some k ∧ |(k : ℚ) - x| ≤ 1 / 2 ∧
      (|(k : ℚ) - x| = 1 / 2 → |x| < |(k : ℚ)|) := by
  obtain ⟨k, hk, hd, ht⟩ := stdRound_spec x
  obtain ⟨k2, hk2, hk3, -⟩ := staticCastInt_stdRound x hlo hhi
  have : k2 = k := by
    have : (k2 : ℚ) = (k : ℚ) := by rw [← hk3, hk]
    exact_mod_cast this
  subst this
  exact ⟨k2, hk2, hd, ht⟩

theorem abs_lt_of_int_range (r : ℚ) (hlo : (INT_MIN : ℚ) ≤ r) (hhi : r ≤ (INT_MAX : ℚ)) :
    |r| < 2 ^ 128 ∧ |r| < 2 ^ 1024 ∧ |r| ≤ (2 : ℚ) ^ (31 : Int) := by
  have h1 : -(2 ^ 31 : ℚ) ≤ r := by
    unfold INT_MIN at hlo
    push_cast at hlo
    exact hlo
  have h2 : r ≤ 2 ^ 31 := by
    unfold INT_MAX at hhi
    push_cast at hhi
    linarith
  have h3 : |r| ≤ 2 ^ 31 := abs_le.mpr ⟨h1, h2⟩
  refine ⟨lt_of_le_of_lt h3 (by norm_num), lt_of_le_of_lt h3 (by norm_num), ?_⟩
  norm_num
  exact h3

theorem binary64_conv_eq (q r : ℚ) (hr : binary64.rnd q = r) (hfin : |r| < 2 ^ 1024) :
    binary64.conv q = some r := by
  unfold FloatFormat.conv
  rw [hr]
  have : binary64.isFinite r = true := by
    simp only [binary64, decide_eq_true_eq]
    exact hfin
  rw [if_pos this]

/-- C7, as amended: the scaling is the product up to the rounding of the arithmetic.
`szF(scale, size)` is the product rounded to `float` (within `2^-24` of the product,
relative to the larger of its magnitude and `2^-126`), and `sz(scale, size)` is the
rounded product rounded to the nearest integer, a half away from zero, so that
`|sz(scale, size) - fl(scale * size)| <= 1/2`, for rounded products within the `int`
range.  The `int` overloads are the `float` overloads at the converted size; the
`double` overloads round the product to `double`. -/
theorem sz_rounds_float_product (c : PaintContext) (scale size : ℚ)
    (hlo : (INT_MIN : ℚ) ≤ binary32.rnd (scale * size))
    (hhi : binary32.rnd (scale * size) ≤ (INT_MAX : ℚ)) :
    (szF_float ieee c scale size).1 = some (binary32.rnd (scale * size)) ∧
      |binary32.rnd (scale * size) - scale * size|
        ≤ max |scale * size| ((2 : ℚ) ^ (-126 : Int)) / 2 ^ 24 ∧
      (∃ k : Int, (sz_float ieee c scale size).1 = some k ∧
        |(k : ℚ) - binary32.rnd (scale * size)| ≤ 1 / 2 ∧
        (|(k : ℚ) - binary32.rnd (scale * size)| = 1 / 2 →
          |binary32.rnd (scale * size)| < |(k : ℚ)|)) ∧
      (∀ n : Int, INT_MIN ≤ n → n ≤ INT_MAX →
        (sz ieee c scale n).1 = (sz_float ieee c scale (binary32.rnd n)).1 ∧
        (szF ieee c scale n).1 = (szF_float ieee c scale (binary32.rnd n)).1) ∧
      ((INT_MIN : ℚ) ≤ binary64.rnd (scale * size) → binary64.rnd (scale * size) ≤ (INT_MAX : ℚ) →
        (szF_double ieee c scale size).1 = some (binary32.rnd (binary64.rnd (scale * size))) ∧
        ∃ k : Int, (sz_double ieee c scale size).1 = some k ∧
          |(k : ℚ) - binary64.rnd (scale * size)| ≤ 1 / 2 ∧
          (|(k : ℚ) - binary64.rnd (scale * size)| = 1 / 2 →
            |binary64.rnd (scale * size)| < |(k : ℚ)|)) := by
  have hconv : binary32.conv (scale * size) = some (binary32.rnd (scale * size)) :=
    binary32_conv_eq _ _ rfl (abs_lt_of_int_range _ hlo hhi).1
  refine ⟨hconv, binary32_rnd_error _, ?_, ?_, ?_⟩
  · obtain ⟨k, hk, hd, ht⟩ := cast_stdRound_spec _ hlo hhi
    refine ⟨k, ?_, hd, ht⟩
    simp only [sz_float, ieee, hconv, Option.some_bind, hk]
  · intro n hn1 hn2
    have hn : |(n : ℚ)| ≤ (2 : ℚ) ^ (31 : Int) :=
      (abs_lt_of_int_range (n : ℚ) (by exact_mod_cast hn1) (by exact_mod_cast hn2)).2.2
    have hcn : binary32.conv (n : ℚ) = some (binary32.rnd (n : ℚ)) :=
      (binary32_conv_of_abs_le _ 31 (by norm_num) (by norm_num) hn).1
    constructor
    · simp only [sz, sz_float, ieee, hcn, Option.some_bind]
    · simp only [szF, szF_float, ieee, hcn, Option.some_bind]
  · intro hlo2 hhi2
    obtain ⟨-, hfin, hb⟩ := abs_lt_of_int_range _ hlo2 hhi2
    have hc64 : binary64.conv (scale * size) = some (binary64.rnd (scale * size)) :=
      binary64_conv_eq _ _ rfl hfin
    have hc32 := (binary32_conv_of_abs_le (binary64.rnd (scale * size)) 31 (by norm_num)
      (by norm_num) hb).1
    obtain ⟨k, hk, hd, ht⟩ := cast_stdRound_spec _ hlo2 hhi2
    refine ⟨?_, k, ?_, hd, ht⟩
    · simp only [szF_double, ieee, hc64, Option.some_bind, hc32]
    · simp only [sz_double, ieee, hc64, Option.some_bind, hk]

theorem binary32_rnd_five_halves : binary32.rnd (5 / 2) = 5 / 2 := by
  have := roundBinary_eq 24 (-126) (5 / 2) 1 10485760 (by norm_num [abs_of_pos])
    (by norm_num [abs_of_pos]) (by norm_num) (by norm_num [roundNearestEven])
  simp only [binary32]
  rw [this]
  norm_num

theorem sz_rounds_float_product_witness :
    (szF_float ieee (fresh 0 0 0 0 0 false 0 ⟨0, 0, 0, 0⟩ 0 "" 0) (5 / 2) 1).1
        = some (binary32.rnd (5 / 2 * 1)) ∧
      ∃ k : Int, (sz_float ieee (fresh 0 0 0 0 0 false 0 ⟨0, 0, 0, 0⟩ 0 "" 0) (5 / 2) 1).1 = some k ∧
        |(k : ℚ) - binary32.rnd (5 / 2 * 1)| ≤ 1 / 2 ∧
        (|(k : ℚ) - binary32.rnd (5 / 2 * 1)| = 1 / 2 → |binary32.rnd (5 / 2 * 1)| < |(k : ℚ)|) :=
  have h := sz_rounds_float_product (fresh 0 0 0 0 0 false 0 ⟨0, 0, 0, 0⟩ 0 "" 0) (5 / 2) 1
    (by rw [mul_one, binary32_rnd_five_halves]; norm_num [INT_MIN])
    (by rw [mul_one, binary32_rnd_five_halves]; norm_num [INT_MAX])
  ⟨h.1, h.2.2.1⟩

theorem binary32_rnd_seven_tenths : binary32.rnd (7 / 10) = 11744051 / 16777216 := by
  have := roundBinary_eq 24 (-126) (7 / 10) (-1) 11744051 (by norm_num [abs_of_pos])
    (by norm_num [abs_of_pos]) (by norm_num) (by norm_num [roundNearestEven])
  simp only [binary32]
  rw [this]
  norm_num

/-- C7 fails as stated: with the `float` 0.7f as scale and the size 5 the product is
3.49999994..., `szF` returns 3.5 and `sz` returns 4, more than 1/2 away from the
product. -/
theorem sz_error_exceeds_half :
    binary32.rnd (7 / 10) = 11744051 / 16777216 ∧
      (szF ieee (fresh 0 0 0 0 0 false 0 ⟨0, 0, 0, 0⟩ 0 "" 0) (11744051 / 16777216) 5).1
        = some (7 / 2) ∧
      (sz ieee (fresh 0 0 0 0 0 false 0 ⟨0, 0, 0, 0⟩ 0 "" 0) (11744051 / 16777216) 5).1 = some 4 ∧
      (7 / 2 : ℚ) ≠ 11744051 / 16777216 * 5 ∧
      ¬ (|(4 : ℚ) - 11744051 / 16777216 * 5| ≤ 1 / 2) := by
  have h1 : binary32.conv ((5 : Int) : ℚ) = some 5 := by
    have := binary32_conv_intCast 5 (by norm_num)
    simpa using this
  have h2 : binary32.conv (11744051 / 16777216 * 5) = some (7 / 2) := by
    apply binary32_conv_eq _ _ _ (by norm_num [abs_of_pos])
    have := roundBinary_eq 24 (-126) (11744051 / 16777216 * 5) 1 14680064
      (by norm_num [abs_of_pos]) (by norm_num [abs_of_pos]) (by norm_num)
      (by norm_num [roundNearestEven])
    simp only [binary32]
    rw [this]
    norm_num
  have h3 : staticCastInt (stdRound (7 / 2)) = some 4 := by
    have hr : stdRound (7 / 2) = ((4 : Int) : ℚ) := by
      norm_num [stdRound]
    rw [hr]
    exact staticCastInt_intCast 4 (by norm_num [INT_MIN]) (by norm_num [INT_MAX])
  refine ⟨binary32_rnd_seven_tenths, szF_eq_some ieee _ _ 5 5 _ h1 h2,
    sz_eq_some ieee _ _ 5 5 _ 4 h1 h2 h3, by norm_num, ?_⟩
  rw [abs_of_pos (by norm_num)]
  norm_num

end PaintContext

/-! ## Painter constants -/

/-- C6: for every radius, every viewport scale and both values of the fast flag (and
whatever the density is), the number of points for a circle lies in
`[CIRCLE_MIN_POINTS, CIRCLE_MAX_POINTS] = [16, 72]`. -/
theorem paintCircle_numPoints_bounds (density : Int → ℚ → Bool → Int) (radiusNm : Int)
    (scale : ℚ) (fast : Bool) :
    CIRCLE_MIN_POINTS ≤ paintCircle_numPoints density radiusNm scale fast ∧
      paintCircle_numPoints density radiusNm scale fast ≤ CIRCLE_MAX_POINTS ∧
      CIRCLE_MIN_POINTS = 16 ∧ CIRCLE_MAX_POINTS = 72 := by
  refine ⟨?_, ?_, rfl, rfl⟩
  · unfold paintCircle_numPoints CIRCLE_MIN_POINTS CIRCLE_MAX_POINTS
    omega
  · unfold paintCircle_numPoints
    exact min_le_right _ _

end MapPainterModel
